import Mathlib

/-
Verification of the image-hashing and mapping-synchronization core of the
novel-downloader image-to-text mapping repository.

The development shallowly embeds the Python sources:

* `scripts/processors/image_hasher.py` — the dHash computation
  (`_calculate_dhash`, `hash_image_data`) and `hamming_distance`;
* `scripts/processors/sync_processor.py` — the reconciliation pipeline
  (`find_missing_hashes`, `get_filenames_for_characters`,
  `process_missing_characters`, `update_hash_mapping`, `sync_domain`).

Python dicts are embedded as association lists (`List (String × String)`):
insertion order is the list order, `d[k] = v` replaces the value in place for
an existing key and appends for a new key, and lookup returns the value of
the first (unique, for genuine dicts) entry with the given key.  External
effects (PIL image decoding, the network downloader, the filesystem) are
embedded as explicit inputs and recorded effect flags.
-/

namespace ImageHasher

/-- Embedding of `ImageHasher._calculate_dhash`'s nested loop
(`image_hasher.py`, lines 167–201): for each row `y < hash_size` and column
`x < hash_size`, compare the pixel at `y * (hash_size+1) + x` with its right
neighbour, emitting `'1'` when the left pixel is strictly smaller.  The `getD`
default is irrelevant whenever the list is long enough for every access. -/
def dhashBits (hash_size : Nat) (pixels : List Int) : List Char :=
  (List.range hash_size).flatMap (fun y =>
    (List.range hash_size).map (fun x =>
      if pixels.getD (y * (hash_size + 1) + x) 0 <
          pixels.getD (y * (hash_size + 1) + x + 1) 0
      then '1' else '0'))

/-- Embedding of `ImageHasher._calculate_dhash`: the Python body runs inside a
`try` block, and any `IndexError` (the pixel list being shorter than the
largest accessed index, `hash_size * (hash_size+1) - 1`) makes the function
return the empty string.  For `hash_size = 0` the loops are empty and the
empty string is returned as well, which the guard also covers. -/
def calculate_dhash (hash_size : Nat) (pixels : List Int) : String :=
  if hash_size * (hash_size + 1) ≤ pixels.length then
    String.mk (dhashBits hash_size pixels)
  else ""

/-- Embedding of `ImageHasher.hash_image_data` (`image_hasher.py`, lines
34–59).  The call `Image.open` + `_preprocess_image` (PIL decoding, LANCZOS
resize to `(hash_size+1) × hash_size`, grayscale conversion) is external
library code; it is embedded as the `decoded` argument: `none` when decoding
raises (the `except` branch returns the empty string), `some pixels` when it
succeeds, in which case PIL guarantees `pixels.length = (hash_size+1) *
hash_size`. -/
def hash_image_data (decoded : Option (List Int)) (hash_size : Nat) : String :=
  match decoded with
  | none => ""
  | some pixels => calculate_dhash hash_size pixels

/-- Embedding of `ImageHasher.hamming_distance` (`image_hasher.py`, lines
203–229): a length mismatch raises `ValueError`, which the function's own
`except` catches, returning `-1`; otherwise the differing positions of the
zipped strings are counted. -/
def hamming_distance (hash1 hash2 : String) : Int :=
  if hash1.length ≠ hash2.length then -1
  else (((hash1.data.zip hash2.data).filter (fun p => p.1 ≠ p.2)).length : Int)

/-- `getD` on a flat map whose pieces all have length `n` selects position `x`
of piece `i` at flat index `i * n + x`. -/
theorem getD_flatMap_uniform {β : Type} (g : Nat → List β) (n : Nat) (d : β) :
    ∀ (l : List Nat) (i x : Nat), i < l.length → x < n →
      (∀ a ∈ l, (g a).length = n) →
      (l.flatMap g).getD (i * n + x) d = (g (l.getD i 0)).getD x d := by
  intro l
  induction l with
  | nil => intro i x hi _ _; simp at hi
  | cons a t ih =>
    intro i x hi hx hlen
    have ha : (g a).length = n := hlen a (List.mem_cons_self a t)
    cases i with
    | zero =>
      rw [List.flatMap_cons, List.getD_append]
      · simp
      · simpa [ha] using hx
    | succ j =>
      rw [List.flatMap_cons, List.getD_append_right]
      · have harith : (j + 1) * n + x - (g a).length = j * n + x := by
          rw [ha, Nat.succ_mul]; omega
        rw [harith]
        simpa using ih j x (by simpa using hi) hx
          (fun b hb => hlen b (List.mem_cons_of_mem a hb))
      · rw [ha, Nat.succ_mul]; omega

theorem length_dhashBits (n : Nat) (pixels : List Int) :
    (dhashBits n pixels).length = n * n := by
  rw [dhashBits, List.length_flatMap]
  simp only [Function.comp_def, List.length_map, List.length_range, List.map_const',
    List.sum_replicate, smul_eq_mul]

theorem calculate_dhash_length (n : Nat) (pixels : List Int)
    (hlen : n * (n + 1) ≤ pixels.length) :
    (calculate_dhash n pixels).length = n * n := by
  rw [calculate_dhash, if_pos hlen, String.length_mk, length_dhashBits]

theorem mem_dhashBits (n : Nat) (pixels : List Int) :
    ∀ c ∈ dhashBits n pixels, c = '0' ∨ c = '1' := by
  intro c hc
  rw [dhashBits, List.mem_flatMap] at hc
  obtain ⟨y, -, hy⟩ := hc
  rw [List.mem_map] at hy
  obtain ⟨x, -, hx⟩ := hy
  by_cases h : pixels.getD (y * (n + 1) + x) 0 < pixels.getD (y * (n + 1) + x + 1) 0
  · right; rw [if_pos h] at hx; exact hx.symm
  · left; rw [if_neg h] at hx; exact hx.symm

theorem calculate_dhash_chars (n : Nat) (pixels : List Int)
    (hlen : n * (n + 1) ≤ pixels.length) :
    ∀ c ∈ (calculate_dhash n pixels).data, c = '0' ∨ c = '1' := by
  rw [calculate_dhash, if_pos hlen]
  exact mem_dhashBits n pixels

theorem dhashBits_getD (n : Nat) (pixels : List Int) (y x : Nat)
    (hy : y < n) (hx : x < n) :
    (dhashBits n pixels).getD (y * n + x) ' ' =
      if pixels.getD (y * (n + 1) + x) 0 < pixels.getD (y * (n + 1) + x + 1) 0
      then '1' else '0' := by
  rw [dhashBits,
    getD_flatMap_uniform _ n _ _ y x (by simpa using hy) hx (by intro a _; simp)]
  have hr : (List.range n).getD y 0 = y := by
    rw [List.getD_eq_getElem?_getD, List.getElem?_range hy]; rfl
  rw [hr, List.getD_eq_getElem?_getD, List.getElem?_map, List.getElem?_range hx]
  rfl

theorem calculate_dhash_getD (n : Nat) (pixels : List Int) (y x : Nat)
    (hlen : n * (n + 1) ≤ pixels.length) (hy : y < n) (hx : x < n) :
    (calculate_dhash n pixels).data.getD (y * n + x) ' ' =
      if pixels.getD (y * (n + 1) + x) 0 < pixels.getD (y * (n + 1) + x + 1) 0
      then '1' else '0' := by
  rw [calculate_dhash, if_pos hlen]
  exact dhashBits_getD n pixels y x hy hx

/-- C3: for every grayscale pixel list of length `(hashSize+1) * hashSize`,
`_calculate_dhash` emits, for each row `y < hashSize` and column
`x < hashSize` in row-major order, bit `'1'` exactly when the pixel at
`(x, y)` is strictly smaller than the pixel at `(x+1, y)`, and the result is
a string of exactly `hashSize²` characters drawn from `{0, 1}`. -/
theorem calculate_dhash_spec (n : Nat) (pixels : List Int)
    (hlen : pixels.length = (n + 1) * n) :
    (calculate_dhash n pixels).length = n * n ∧
    (∀ c ∈ (calculate_dhash n pixels).data, c = '0' ∨ c = '1') ∧
    ∀ y < n, ∀ x < n,
      (calculate_dhash n pixels).data.getD (y * n + x) ' ' =
        if pixels.getD (y * (n + 1) + x) 0 < pixels.getD (y * (n + 1) + x + 1) 0
        then '1' else '0' := by
  have hg : n * (n + 1) ≤ pixels.length := by rw [hlen, Nat.mul_comm]
  exact ⟨calculate_dhash_length n pixels hg, calculate_dhash_chars n pixels hg,
    fun y hy x hx => calculate_dhash_getD n pixels y x hg hy hx⟩

/-- Witness for C3 at `hashSize = 2` and the concrete pixel rows
`[0, 1, 2]` and `[2, 1, 0]`. -/
theorem calculate_dhash_spec_witness :
    ([0, 1, 2, 2, 1, 0] : List Int).length = (2 + 1) * 2 ∧
    ((calculate_dhash 2 [0, 1, 2, 2, 1, 0]).length = 2 * 2 ∧
     (∀ c ∈ (calculate_dhash 2 [0, 1, 2, 2, 1, 0]).data, c = '0' ∨ c = '1') ∧
     ∀ y < 2, ∀ x < 2,
       (calculate_dhash 2 [0, 1, 2, 2, 1, 0]).data.getD (y * 2 + x) ' ' =
         if ([0, 1, 2, 2, 1, 0] : List Int).getD (y * (2 + 1) + x) 0 <
             ([0, 1, 2, 2, 1, 0] : List Int).getD (y * (2 + 1) + x + 1) 0
         then '1' else '0') :=
  ⟨rfl, calculate_dhash_spec 2 [0, 1, 2, 2, 1, 0] rfl⟩

/-- C5 counterexample: on a byte buffer that does not decode as an image
(e.g. an empty buffer), `hash_image_data` returns the empty string via its
`except` branch, whose length is `0`, not `hashSize² = 64`. -/
theorem hash_image_data_length_counterexample :
    ¬ (hash_image_data none 8).length = 8 * 8 := by decide

/-- C5 (amended): for every byte buffer that decodes and preprocesses
successfully — yielding `(hashSize+1) * hashSize` grayscale pixels — the
output of `hash_image_data` has length exactly `hashSize²` over the alphabet
`{0, 1}`; when decoding fails, the empty string is returned instead. -/
theorem hash_image_data_spec (pixels : List Int) (n : Nat)
    (hlen : pixels.length = (n + 1) * n) :
    (hash_image_data (some pixels) n).length = n * n ∧
    (∀ c ∈ (hash_image_data (some pixels) n).data, c = '0' ∨ c = '1') ∧
    hash_image_data none n = "" := by
  have hg : n * (n + 1) ≤ pixels.length := by rw [hlen, Nat.mul_comm]
  exact ⟨calculate_dhash_length n pixels hg, calculate_dhash_chars n pixels hg, rfl⟩

/-- Witness for C5 (amended) at `hashSize = 2` on concrete pixels. -/
theorem hash_image_data_spec_witness :
    ([5, 9, 9, 7, 7, 7] : List Int).length = (2 + 1) * 2 ∧
    ((hash_image_data (some [5, 9, 9, 7, 7, 7]) 2).length = 2 * 2 ∧
     (∀ c ∈ (hash_image_data (some [5, 9, 9, 7, 7, 7]) 2).data, c = '0' ∨ c = '1') ∧
     hash_image_data none 2 = "") :=
  ⟨rfl, hash_image_data_spec [5, 9, 9, 7, 7, 7] 2 rfl⟩

/-- Counting differing positions of two zipped equal-length lists yields `0`
exactly when the lists are equal. -/
theorem filter_zip_ne_length_eq_zero :
    ∀ (l₁ l₂ : List Char), l₁.length = l₂.length →
      ((((l₁.zip l₂).filter (fun p => p.1 ≠ p.2)).length = 0) ↔ l₁ = l₂) := by
  intro l₁
  induction l₁ with
  | nil =>
    intro l₂ h
    cases l₂ with
    | nil => simp
    | cons b s => simp at h
  | cons a t ih =>
    intro l₂ h
    cases l₂ with
    | nil => simp at h
    | cons b s =>
      rw [List.zip_cons_cons]
      by_cases hab : a = b
      · subst hab
        simpa using ih s (by simpa using h)
      · simp [List.filter_cons, hab]

/-- C8: for every pair of equal-length strings `a` and `b`,
`hamming_distance a b` lies in `[0, len a]` and is `0` exactly when
`a = b`. -/
theorem hamming_distance_bounds (a b : String) (hlen : a.length = b.length) :
    0 ≤ hamming_distance a b ∧ hamming_distance a b ≤ (a.length : Int) ∧
    (hamming_distance a b = 0 ↔ a = b) := by
  rw [hamming_distance, if_neg (by simp [hlen])]
  refine ⟨Int.natCast_nonneg _, ?_, ?_⟩
  · rw [Nat.cast_le]
    calc ((a.data.zip b.data).filter (fun p => p.1 ≠ p.2)).length
        ≤ (a.data.zip b.data).length := List.length_filter_le _ _
      _ ≤ a.length := by
          rw [List.length_zip]
          exact min_le_left _ _
  · rw [Nat.cast_eq_zero,
      filter_zip_ne_length_eq_zero a.data b.data hlen]
    exact ⟨fun h => String.ext h, fun h => by rw [h]⟩

/-- Witness for C8 on the concrete hashes `"01"` and `"11"`. -/
theorem hamming_distance_bounds_witness :
    ("01" : String).length = ("11" : String).length ∧
    (0 ≤ hamming_distance "01" "11" ∧
     hamming_distance "01" "11" ≤ (("01" : String).length : Int) ∧
     (hamming_distance "01" "11" = 0 ↔ ("01" : String) = "11")) :=
  ⟨rfl, hamming_distance_bounds "01" "11" rfl⟩

end ImageHasher

namespace SyncProcessor

/-- A Python `Dict[str, str]` embedded as an association list in insertion
order.  Genuine dicts have pairwise distinct keys. -/
abbrev Mapping := List (String × String)

def dictKeys (d : Mapping) : List String := d.map Prod.fst

/-- `d[k]` / `d.get(k)`: the value of the first entry whose key is `k`. -/
def dictLookup (d : Mapping) (k : String) : Option String :=
  (d.find? (fun p => p.1 == k)).map Prod.snd

/-- `d[k] = v`: replace the value in place when `k` is present, append a new
entry otherwise. -/
def dictInsert (d : Mapping) (k v : String) : Mapping :=
  if (dictKeys d).contains k then
    d.map (fun p => if p.1 == k then (p.1, v) else p)
  else d ++ [(k, v)]

/-- `d.update(new)`: apply `d[k] = v` for each entry of `new` in order. -/
def dictUpdate (d new : Mapping) : Mapping :=
  new.foldl (fun acc p => dictInsert acc p.1 p.2) d

/-- The conflict test of `SyncProcessor.update_hash_mapping`
(`sync_processor.py`, lines 254–258): a new pair `(hash, character)`
conflicts when the hash is already present with a different character. -/
def isConflict (existing : Mapping) (p : String × String) : Bool :=
  match dictLookup existing p.1 with
  | some c => c != p.2
  | none => false

def conflictsOf (existing new : Mapping) : Mapping :=
  new.filter (isConflict existing)

/-- The error message appended per conflict (Python formats the two
characters with surrounding quotes; the quoting is elided here). -/
def conflictMessage (existing : Mapping) (p : String × String) : String :=
  "Hash " ++ p.1 ++ " maps to " ++ ((dictLookup existing p.1).getD "") ++
    " but trying to add " ++ p.2

/-- The fields of `ValidationResult` (`models/validation_result.py`) observed
by the claims.  `errors` and `warnings` carry the message strings;
`add_error` also forces `success := false`. -/
structure VResult where
  success : Bool
  errors : List String := []
  warnings : List String := []
  processed_files : Nat := 0
  total_files : Nat := 0
deriving Repr, DecidableEq

/-- Outcome of one `update_hash_mapping` call: the returned
`ValidationResult`, the hash-mapping file contents after the call (`none` =
the file does not exist), and whether the file was read resp. written. -/
structure UpdateOutcome where
  result : VResult
  fileAfter : Option Mapping
  fileRead : Bool
  fileWritten : Bool
deriving Repr, DecidableEq

/-- Embedding of `SyncProcessor.update_hash_mapping` (`sync_processor.py`,
lines 226–293).  `fileBefore` is the hash-mapping file: `none` when it does
not exist (then the existing mapping is `{}` and no read happens).  The
`write_json_file` exception branch is not modelled: the write is assumed to
succeed, as every claim about this function concerns the paths before the
write or the written contents. -/
def update_hash_mapping (fileBefore : Option Mapping) (new_hashes : Mapping) :
    UpdateOutcome :=
  if new_hashes.isEmpty then
    { result := { success := true }, fileAfter := fileBefore,
      fileRead := false, fileWritten := false }
  else
    let existing := fileBefore.getD []
    let conflicts := conflictsOf existing new_hashes
    if conflicts.isEmpty then
      let updated := dictUpdate existing new_hashes
      { result := { success := true, processed_files := new_hashes.length,
                    total_files := updated.length },
        fileAfter := some updated,
        fileRead := fileBefore.isSome, fileWritten := true }
    else
      { result := { success := false,
                    errors := conflicts.map (conflictMessage existing) },
        fileAfter := fileBefore,
        fileRead := fileBefore.isSome, fileWritten := false }

theorem find?_map_insert (k v : String) :
    ∀ d : Mapping,
      (d.map (fun p => if p.1 == k then (p.1, v) else p)).find? (fun p => p.1 == k) =
        (d.find? (fun p => p.1 == k)).map (fun p => (p.1, v)) := by
  intro d
  induction d with
  | nil => rfl
  | cons q t ih =>
    rw [List.map_cons]
    by_cases h : q.1 = k
    · have hb : (q.1 == k) = true := beq_iff_eq.mpr h
      rw [if_pos hb,
        List.find?_cons_of_pos (p := fun r : String × String => r.1 == k)
          (a := (q.1, v)) _ hb,
        List.find?_cons_of_pos (p := fun r : String × String => r.1 == k)
          (a := q) _ hb]
      rfl
    · have hb : (q.1 == k) = false := by simpa using h
      rw [if_neg (by simp [hb]),
        List.find?_cons_of_neg (p := fun r : String × String => r.1 == k)
          (a := q) _ (by simp [hb]),
        List.find?_cons_of_neg (p := fun r : String × String => r.1 == k)
          (a := q) _ (by simp [hb]), ih]

theorem find?_map_insert_other (k v k' : String) (hne : k' ≠ k) :
    ∀ d : Mapping,
      (d.map (fun p => if p.1 == k then (p.1, v) else p)).find? (fun p => p.1 == k') =
        d.find? (fun p => p.1 == k') := by
  intro d
  induction d with
  | nil => rfl
  | cons q t ih =>
    rw [List.map_cons]
    by_cases h : q.1 = k
    · have hb : (q.1 == k') = false := by
        rw [h]; simpa using Ne.symm hne
      rw [if_pos (beq_iff_eq.mpr h),
        List.find?_cons_of_neg (p := fun r : String × String => r.1 == k')
          (a := (q.1, v)) _ (by simp [hb]),
        List.find?_cons_of_neg (p := fun r : String × String => r.1 == k')
          (a := q) _ (by simp [hb]), ih]
    · have hb : (q.1 == k) = false := by simpa using h
      rw [if_neg (by simp [hb])]
      by_cases h' : q.1 = k'
      · rw [List.find?_cons_of_pos (p := fun r : String × String => r.1 == k')
            (a := q) _ (beq_iff_eq.mpr h'),
          List.find?_cons_of_pos (p := fun r : String × String => r.1 == k')
            (a := q) _ (beq_iff_eq.mpr h')]
      · have hb' : (q.1 == k') = false := by simpa using h'
        rw [List.find?_cons_of_neg (p := fun r : String × String => r.1 == k')
            (a := q) _ (by simp [hb']),
          List.find?_cons_of_neg (p := fun r : String × String => r.1 == k')
            (a := q) _ (by simp [hb']), ih]

theorem dictLookup_insert_self (d : Mapping) (k v : String) :
    dictLookup (dictInsert d k v) k = some v := by
  rw [dictInsert]
  by_cases hc : (dictKeys d).contains k
  · rw [if_pos hc, dictLookup, find?_map_insert]
    have hk : k ∈ dictKeys d := List.elem_iff.mp hc
    have : ∃ p ∈ d, (p.1 == k) = true := by
      rw [dictKeys, List.mem_map] at hk
      obtain ⟨p, hp, hpk⟩ := hk
      exact ⟨p, hp, by simp [hpk]⟩
    obtain ⟨p, hfind⟩ := Option.isSome_iff_exists.mp (List.find?_isSome.mpr this)
    rw [hfind]
    rfl
  · rw [if_neg hc, dictLookup, List.find?_append]
    have hknot : k ∉ dictKeys d := fun hmem => hc (List.elem_iff.mpr hmem)
    have hnone : d.find? (fun p => p.1 == k) = none := by
      rw [List.find?_eq_none]
      intro p hp hpk
      exact hknot (by rw [dictKeys, List.mem_map]; exact ⟨p, hp, by simpa using hpk⟩)
    rw [hnone]
    simp

theorem dictLookup_insert_other (d : Mapping) (k v k' : String) (hne : k' ≠ k) :
    dictLookup (dictInsert d k v) k' = dictLookup d k' := by
  rw [dictInsert]
  by_cases hc : (dictKeys d).contains k
  · rw [if_pos hc, dictLookup, find?_map_insert_other k v k' hne, dictLookup]
  · rw [if_neg hc, dictLookup, List.find?_append]
    have hsingle : List.find? (fun p => p.1 == k') [(k, v)] = none := by
      rw [List.find?_cons_of_neg _ (by simpa using Ne.symm hne)]
      rfl
    rw [hsingle, Option.or_none, dictLookup]

theorem dictKeys_insert (d : Mapping) (k v : String) :
    ∀ k', k' ∈ dictKeys (dictInsert d k v) → k' ∈ dictKeys d ∨ k' = k := by
  intro k' hk'
  rw [dictInsert] at hk'
  by_cases hc : (dictKeys d).contains k
  · rw [if_pos hc] at hk'
    left
    rw [dictKeys, List.map_map] at hk'
    rw [dictKeys]
    have heq : (Prod.fst ∘ fun p : String × String =>
        if p.1 == k then (p.1, v) else p) = Prod.fst := by
      funext p
      by_cases h : p.1 = k <;> simp [h]
    rwa [heq] at hk'
  · rw [if_neg hc, dictKeys, List.map_append] at hk'
    rcases List.mem_append.mp hk' with h | h
    · exact Or.inl h
    · right; simpa using h

theorem dictUpdate_lookup_preserved (existing : Mapping) (k v : String)
    (hk : dictLookup existing k = some v) :
    ∀ (new acc : Mapping), (∀ p ∈ new, isConflict existing p = false) →
      dictLookup acc k = some v →
      dictLookup (dictUpdate acc new) k = some v := by
  intro new
  induction new with
  | nil => intro acc _ hacc; exact hacc
  | cons p t ih =>
    intro acc hconf hacc
    rw [dictUpdate, List.foldl_cons]
    refine ih (dictInsert acc p.1 p.2)
      (fun q hq => hconf q (List.mem_cons_of_mem p hq)) ?_
    by_cases hpk : p.1 = k
    · have hcp := hconf p (List.mem_cons_self p t)
      rw [isConflict, hpk, hk] at hcp
      have : p.2 = v := (bne_eq_false_iff_eq.mp hcp).symm
      rw [hpk, dictLookup_insert_self, this]
    · rw [dictLookup_insert_other acc p.1 p.2 k (fun hh => hpk hh.symm)]
      exact hacc

theorem dictUpdate_keys_subset :
    ∀ (new acc : Mapping) (k : String),
      k ∈ dictKeys (dictUpdate acc new) → k ∈ dictKeys acc ∨ k ∈ dictKeys new := by
  intro new
  induction new with
  | nil => intro acc k h; exact Or.inl h
  | cons p t ih =>
    intro acc k h
    rw [dictUpdate, List.foldl_cons] at h
    rcases ih (dictInsert acc p.1 p.2) k h with h' | h'
    · rcases dictKeys_insert acc p.1 p.2 k h' with h'' | h''
      · exact Or.inl h''
      · right; rw [dictKeys, List.map_cons, h'']; exact List.mem_cons_self _ _
    · right; rw [dictKeys, List.map_cons]; exact List.mem_cons_of_mem _ h'

theorem dictLookup_of_nodup_mem (k a : String) :
    ∀ d : Mapping, (dictKeys d).Nodup → (k, a) ∈ d → dictLookup d k = some a := by
  intro d
  induction d with
  | nil => intro _ h; simp at h
  | cons q t ih =>
    intro hnd hmem
    have hnd' := hnd
    simp only [dictKeys, List.map_cons, List.nodup_cons] at hnd'
    by_cases hqk : q.1 = k
    · have hq2 : q.2 = a := by
        rcases List.mem_cons.mp hmem with h | h
        · rw [← h]
        · exact absurd (by rw [List.mem_map]; exact ⟨(k, a), h, by rw [hqk]⟩) hnd'.1
      rw [dictLookup,
        List.find?_cons_of_pos (p := fun r : String × String => r.1 == k)
          (a := q) _ (beq_iff_eq.mpr hqk)]
      rw [Option.map_some', hq2]
    · have hmem' : (k, a) ∈ t := by
        rcases List.mem_cons.mp hmem with h | h
        · exact absurd (congrArg Prod.fst h.symm) hqk
        · exact h
      rw [dictLookup,
        List.find?_cons_of_neg (p := fun r : String × String => r.1 == k)
          (a := q) _ (by simpa using hqk)]
      exact ih hnd'.2 hmem'

/-- C1 counterexample: with the existing mapping `{h1: a}` and the batch
`{h1: b, h2: c}`, the entry `(h1, b)` conflicts while `(h2, c)` does not;
`update_hash_mapping` nevertheless rejects the whole batch — the call fails
and `h2` is not merged, contradicting the claimed conflict isolation. -/
theorem update_hash_mapping_conflict_counterexample :
    (update_hash_mapping (some [("h1", "a")]) [("h1", "b"), ("h2", "c")]).result.success
        = false ∧
    isConflict [("h1", "a")] ("h2", "c") = false ∧
    dictLookup
      ((update_hash_mapping (some [("h1", "a")])
          [("h1", "b"), ("h2", "c")]).fileAfter.getD []) "h2" = none ∧
    (update_hash_mapping (some [("h1", "a")]) [("h1", "b"), ("h2", "c")]).fileAfter
        = some [("h1", "a")] := by
  refine ⟨rfl, rfl, rfl, rfl⟩

/-- C1 (amended): if any entry of the batch conflicts with the existing hash
mapping, `update_hash_mapping` rejects the *entire* batch: the call fails,
one error is reported per conflicting entry, nothing is written, and the
mapping is left unchanged — the non-conflicting entries of the batch are not
merged either. -/
theorem update_hash_mapping_conflict_rejects_batch (fileBefore : Option Mapping)
    (new_hashes : Mapping)
    (hc : conflictsOf (fileBefore.getD []) new_hashes ≠ []) :
    (update_hash_mapping fileBefore new_hashes).result.success = false ∧
    (update_hash_mapping fileBefore new_hashes).fileAfter = fileBefore ∧
    (update_hash_mapping fileBefore new_hashes).fileWritten = false ∧
    (update_hash_mapping fileBefore new_hashes).result.errors =
      (conflictsOf (fileBefore.getD []) new_hashes).map
        (conflictMessage (fileBefore.getD [])) := by
  have hne : new_hashes.isEmpty = false := by
    rw [List.isEmpty_eq_false]
    intro hnil
    exact hc (by rw [hnil, conflictsOf, List.filter_nil])
  have hcb : (conflictsOf (fileBefore.getD []) new_hashes).isEmpty = false :=
    List.isEmpty_eq_false.mpr hc
  rw [update_hash_mapping]
  simp only [hne, Bool.false_eq_true, if_false, hcb]
  exact ⟨by trivial, by trivial, by trivial, by trivial⟩

/-- Witness for C1 (amended) on the existing mapping `{h1: a}` and batch
`{h1: b, h2: c}`. -/
theorem update_hash_mapping_conflict_rejects_batch_witness :
    conflictsOf ((some [("h1", "a")] : Option Mapping).getD [])
        [("h1", "b"), ("h2", "c")] ≠ [] ∧
    ((update_hash_mapping (some [("h1", "a")])
        [("h1", "b"), ("h2", "c")]).result.success = false ∧
     (update_hash_mapping (some [("h1", "a")])
        [("h1", "b"), ("h2", "c")]).fileAfter = some [("h1", "a")] ∧
     (update_hash_mapping (some [("h1", "a")])
        [("h1", "b"), ("h2", "c")]).fileWritten = false ∧
     (update_hash_mapping (some [("h1", "a")])
        [("h1", "b"), ("h2", "c")]).result.errors =
       (conflictsOf ((some [("h1", "a")] : Option Mapping).getD [])
           [("h1", "b"), ("h2", "c")]).map
         (conflictMessage ((some [("h1", "a")] : Option Mapping).getD []))) :=
  ⟨by decide,
   update_hash_mapping_conflict_rejects_batch (some [("h1", "a")])
     [("h1", "b"), ("h2", "c")] (by decide)⟩

/-- C4: whenever `update_hash_mapping` returns success, every key present in
the hash mapping before the merge still maps to the same character value
afterwards, and every key of the resulting mapping was either already present
or comes from the batch of new hashes. -/
theorem update_hash_mapping_no_overwrite (fileBefore : Option Mapping)
    (new_hashes : Mapping)
    (hs : (update_hash_mapping fileBefore new_hashes).result.success = true) :
    (∀ k v, dictLookup (fileBefore.getD []) k = some v →
       dictLookup ((update_hash_mapping fileBefore new_hashes).fileAfter.getD [])
         k = some v) ∧
    ∀ k,
      k ∈ dictKeys ((update_hash_mapping fileBefore new_hashes).fileAfter.getD []) →
      k ∈ dictKeys (fileBefore.getD []) ∨ k ∈ dictKeys new_hashes := by
  by_cases hne : new_hashes.isEmpty
  · have hnil : new_hashes = [] := List.isEmpty_iff.mp hne
    subst hnil
    constructor
    · intro k v hk
      simpa [update_hash_mapping] using hk
    · intro k hk
      left
      simpa [update_hash_mapping] using hk
  · have hne' : new_hashes.isEmpty = false := Bool.not_eq_true _ ▸ Bool.of_not_eq_true hne
    by_cases hcf : (conflictsOf (fileBefore.getD []) new_hashes).isEmpty
    · have hafter :
          (update_hash_mapping fileBefore new_hashes).fileAfter =
            some (dictUpdate (fileBefore.getD []) new_hashes) := by
        rw [update_hash_mapping]
        simp only [hne', Bool.false_eq_true, if_false, hcf, if_true]
      have hconf : ∀ p ∈ new_hashes, isConflict (fileBefore.getD []) p = false := by
        intro p hp
        have := List.isEmpty_iff.mp hcf
        rw [conflictsOf, List.filter_eq_nil_iff] at this
        simpa using this p hp
      constructor
      · intro k v hk
        rw [hafter]
        exact dictUpdate_lookup_preserved (fileBefore.getD []) k v hk new_hashes
          (fileBefore.getD []) hconf hk
      · intro k hk
        rw [hafter] at hk
        exact dictUpdate_keys_subset new_hashes (fileBefore.getD []) k hk
    · exfalso
      have hcf' : (conflictsOf (fileBefore.getD []) new_hashes).isEmpty = false :=
        Bool.not_eq_true _ ▸ Bool.of_not_eq_true hcf
      rw [update_hash_mapping] at hs
      simp only [hne', Bool.false_eq_true, if_false, hcf'] at hs

/-- Witness for C4 on the existing mapping `{h1: a}` and the conflict-free
batch `{h2: b}`. -/
theorem update_hash_mapping_no_overwrite_witness :
    (update_hash_mapping (some [("h1", "a")]) [("h2", "b")]).result.success = true ∧
    ((∀ k v, dictLookup ((some [("h1", "a")] : Option Mapping).getD []) k = some v →
        dictLookup ((update_hash_mapping (some [("h1", "a")])
            [("h2", "b")]).fileAfter.getD []) k = some v) ∧
     ∀ k,
       k ∈ dictKeys ((update_hash_mapping (some [("h1", "a")])
           [("h2", "b")]).fileAfter.getD []) →
       k ∈ dictKeys ((some [("h1", "a")] : Option Mapping).getD []) ∨
         k ∈ dictKeys [("h2", "b")]) :=
  ⟨rfl, update_hash_mapping_no_overwrite (some [("h1", "a")]) [("h2", "b")] rfl⟩

/-- C7: a new entry whose hash is already bound to the same character is a
no-op: it is never reported as a conflict, and — the remaining entries of the
batch being conflict-free, as they are for a genuine dict batch with this as
its only coincidence — the call succeeds with no errors and the mapping keeps
the same value for that key. -/
theorem update_hash_mapping_same_char_noop (fileBefore : Option Mapping)
    (new_hashes : Mapping) (h c : String)
    (hnodup : (dictKeys new_hashes).Nodup)
    (hmem : (h, c) ∈ new_hashes)
    (hlook : dictLookup (fileBefore.getD []) h = some c) :
    (∀ p ∈ conflictsOf (fileBefore.getD []) new_hashes, p.1 ≠ h) ∧
    ((∀ p ∈ new_hashes, isConflict (fileBefore.getD []) p = false) →
      (update_hash_mapping fileBefore new_hashes).result.success = true ∧
      (update_hash_mapping fileBefore new_hashes).result.errors = [] ∧
      dictLookup ((update_hash_mapping fileBefore new_hashes).fileAfter.getD [])
        h = some c) := by
  constructor
  · intro p hp hph
    rw [conflictsOf, List.mem_filter] at hp
    have hp2 : p.2 = c := by
      have h1 : dictLookup new_hashes h = some c :=
        dictLookup_of_nodup_mem h c new_hashes hnodup hmem
      have h2 : dictLookup new_hashes h = some p.2 := by
        have hmemp : (h, p.2) ∈ new_hashes := by
          rw [← hph]
          simpa using hp.1
        exact dictLookup_of_nodup_mem h p.2 new_hashes hnodup hmemp
      rw [h1] at h2
      exact (Option.some.injEq _ _ ▸ h2).symm
    have := hp.2
    rw [isConflict, hph, hlook, hp2] at this
    simp at this
  · intro hconf
    have hne : new_hashes.isEmpty = false := by
      rw [List.isEmpty_eq_false]
      intro hnil
      rw [hnil] at hmem
      exact (List.not_mem_nil _) hmem
    have hcf : (conflictsOf (fileBefore.getD []) new_hashes).isEmpty = true := by
      rw [List.isEmpty_iff, conflictsOf, List.filter_eq_nil_iff]
      intro p hp
      simp [hconf p hp]
    have hafter :
        (update_hash_mapping fileBefore new_hashes).fileAfter =
          some (dictUpdate (fileBefore.getD []) new_hashes) := by
      rw [update_hash_mapping]
      simp only [hne, Bool.false_eq_true, if_false, hcf, if_true]
    refine ⟨?_, ?_, ?_⟩
    · rw [update_hash_mapping]
      simp only [hne, Bool.false_eq_true, if_false, hcf, if_true]
    · rw [update_hash_mapping]
      simp only [hne, Bool.false_eq_true, if_false, hcf, if_true]
    · rw [hafter]
      exact dictUpdate_lookup_preserved (fileBefore.getD []) h c hlook new_hashes
        (fileBefore.getD []) hconf hlook

/-- Witness for C7: the mapping `{h1: a}` receives the batch `{h1: a}`
again. -/
theorem update_hash_mapping_same_char_noop_witness :
    (dictKeys [("h1", "a")]).Nodup ∧
    ("h1", "a") ∈ ([("h1", "a")] : Mapping) ∧
    dictLookup ((some [("h1", "a")] : Option Mapping).getD []) "h1" = some "a" ∧
    ((∀ p ∈ conflictsOf ((some [("h1", "a")] : Option Mapping).getD [])
        [("h1", "a")], p.1 ≠ "h1") ∧
     ((∀ p ∈ ([("h1", "a")] : Mapping),
         isConflict ((some [("h1", "a")] : Option Mapping).getD []) p = false) →
       (update_hash_mapping (some [("h1", "a")]) [("h1", "a")]).result.success
           = true ∧
       (update_hash_mapping (some [("h1", "a")]) [("h1", "a")]).result.errors
           = [] ∧
       dictLookup ((update_hash_mapping (some [("h1", "a")])
           [("h1", "a")]).fileAfter.getD []) "h1" = some "a")) :=
  ⟨by decide, by decide, rfl,
   update_hash_mapping_same_char_noop (some [("h1", "a")]) [("h1", "a")]
     "h1" "a" (by decide) (by decide) rfl⟩

/-- C10: a call to `update_hash_mapping` with an empty batch of new hashes
returns success immediately; the hash-mapping file is neither read nor
written and its contents are unchanged. -/
theorem update_hash_mapping_empty_noop (fileBefore : Option Mapping) :
    (update_hash_mapping fileBefore []).result.success = true ∧
    (update_hash_mapping fileBefore []).fileRead = false ∧
    (update_hash_mapping fileBefore []).fileWritten = false ∧
    (update_hash_mapping fileBefore []).fileAfter = fileBefore :=
  ⟨rfl, rfl, rfl, rfl⟩

/-- `all_filenames` in `SyncProcessor.process_missing_characters`
(`sync_processor.py`, lines 155–158): the concatenation of the candidate
filename lists of `char_to_filenames`, in dict order. -/
def allFilenames (ctf : List (String × List String)) : List String :=
  (ctf.map Prod.snd).flatten

/-- One step of the dedup loop (lines 160–166).  The pair carries the
`unique_filenames` list and the `seen` set; the Python `set` is observed only
through membership, so it is carried as a list. -/
def dedupStep (p : List String × List String) (f : String) :
    List String × List String :=
  if p.2.contains f then p else (p.1 ++ [f], p.2 ++ [f])

/-- `unique_filenames`: duplicates removed, first-seen order preserved. -/
def unique_filenames (l : List String) : List String :=
  (l.foldl dedupStep ([], [])).1

/-- Reference recursion for first-occurrence deduplication: keep the head,
drop its later duplicates, recurse. -/
def firstSeenDedup : List String → List String
  | [] => []
  | f :: rest => f :: firstSeenDedup (rest.filter (fun g => g != f))
termination_by l => l.length
decreasing_by
  simp only [List.length_cons]
  exact Nat.lt_succ_of_le (List.length_filter_le _ _)

theorem contains_append_singleton (l : List String) (a x : String) :
    (l ++ [a]).contains x = (l.contains x || (x == a)) := by
  simp only [List.contains_eq_any_beq, List.any_append, List.any_cons, List.any_nil,
    Bool.or_false]

/-- The imperative dedup loop computes `firstSeenDedup` of the not-yet-seen
elements, appended to the accumulated unique list. -/
theorem foldl_dedupStep_eq :
    ∀ (l u s : List String), (∀ x, s.contains x = u.contains x) →
      (l.foldl dedupStep (u, s)).1 =
        u ++ firstSeenDedup (l.filter (fun f => !u.contains f)) := by
  intro l
  induction l with
  | nil =>
    intro u s _
    rw [List.foldl_nil, List.filter_nil, firstSeenDedup, List.append_nil]
  | cons f rest ih =>
    intro u s hus
    rw [List.foldl_cons, dedupStep]
    by_cases hf : s.contains f = true
    · have huf : u.contains f = true := by rw [← hus]; exact hf
      rw [if_pos hf, ih u s hus, List.filter_cons, if_neg (by rw [huf]; decide)]
    · have hsf : s.contains f = false := Bool.eq_false_iff.mpr hf
      have huf : u.contains f = false := by rw [← hus]; exact hsf
      rw [if_neg hf, ih (u ++ [f]) (s ++ [f]) ?inv]
      case inv =>
        intro x
        rw [contains_append_singleton, contains_append_singleton, hus]
      rw [List.filter_cons, if_pos (by rw [huf]; rfl), firstSeenDedup]
      have hfilters :
          rest.filter (fun g => !(u ++ [f]).contains g) =
            (rest.filter (fun g => !u.contains g)).filter (fun g => g != f) := by
        rw [List.filter_filter]
        refine List.filter_congr ?_
        intro g _
        rw [contains_append_singleton]
        cases hg : u.contains g <;> cases hgf : g == f <;>
          simp [bne, hg, hgf]
      rw [hfilters, List.append_assoc]
      rfl

theorem unique_filenames_eq_firstSeenDedup (l : List String) :
    unique_filenames l = firstSeenDedup l := by
  rw [unique_filenames, foldl_dedupStep_eq l [] [] (fun x => rfl), List.nil_append]
  have : l.filter (fun f => !List.contains [] f) = l := by
    have hpred : ∀ f ∈ l, (!List.contains [] f) = true := fun f _ => rfl
    rw [List.filter_congr hpred, List.filter_true]
  rw [this]

theorem mem_firstSeenDedup (x : String) :
    ∀ (n : Nat) (l : List String), l.length ≤ n →
      (x ∈ firstSeenDedup l ↔ x ∈ l) := by
  intro n
  induction n with
  | zero =>
    intro l hl
    have hnil : l = [] := List.length_eq_zero.mp (Nat.le_zero.mp hl)
    rw [hnil, firstSeenDedup]
  | succ n ih =>
    intro l hl
    cases l with
    | nil => rw [firstSeenDedup]
    | cons f rest =>
      rw [firstSeenDedup, List.mem_cons, List.mem_cons,
        ih (rest.filter (fun g => g != f))
          (le_trans (List.length_filter_le _ _) (by simpa using hl)),
        List.mem_filter]
      by_cases hx : x = f
      · simp [hx]
      · simp [hx, bne_iff_ne]

theorem nodup_firstSeenDedup :
    ∀ (n : Nat) (l : List String), l.length ≤ n → (firstSeenDedup l).Nodup := by
  intro n
  induction n with
  | zero =>
    intro l hl
    have hnil : l = [] := List.length_eq_zero.mp (Nat.le_zero.mp hl)
    rw [hnil, firstSeenDedup]
    exact List.nodup_nil
  | succ n ih =>
    intro l hl
    cases l with
    | nil => rw [firstSeenDedup]; exact List.nodup_nil
    | cons f rest =>
      rw [firstSeenDedup, List.nodup_cons]
      have hrest : (rest.filter (fun g => g != f)).length ≤ n :=
        le_trans (List.length_filter_le _ _) (by simpa using hl)
      refine ⟨?_, ih _ hrest⟩
      intro hmem
      have hf : f ∈ rest.filter (fun g => g != f) :=
        (mem_firstSeenDedup f n _ hrest).mp hmem
      have := (List.mem_filter.mp hf).2
      simp at this

/-- First occurrences keep their relative order under `filter`. -/
theorem indexOf_filter_lt (p : String → Bool) :
    ∀ (l : List String) (a b : String), a ∈ l.filter p → b ∈ l.filter p →
      (l.filter p).indexOf a < (l.filter p).indexOf b →
      l.indexOf a < l.indexOf b := by
  intro l
  induction l with
  | nil => intro a b ha _ _; simp at ha
  | cons x t ih =>
    intro a b ha hb hlt
    rw [List.filter_cons] at ha hb hlt
    by_cases hp : p x = true
    · rw [if_pos hp] at ha hb hlt
      by_cases hbx : b = x
      · subst hbx
        rw [List.indexOf_cons_self] at hlt
        exact absurd hlt (Nat.not_lt_zero _)
      · by_cases hax : a = x
        · subst hax
          rw [List.indexOf_cons_self,
            List.indexOf_cons_ne t (fun h => hbx h.symm)]
          exact Nat.succ_pos _
        · rw [List.indexOf_cons_ne _ (fun h => hax h.symm),
            List.indexOf_cons_ne _ (fun h => hbx h.symm)] at hlt
          have ha' : a ∈ t.filter p := by
            rcases List.mem_cons.mp ha with h | h
            · exact absurd h hax
            · exact h
          have hb' : b ∈ t.filter p := by
            rcases List.mem_cons.mp hb with h | h
            · exact absurd h hbx
            · exact h
          rw [List.indexOf_cons_ne t (fun h => hax h.symm),
            List.indexOf_cons_ne t (fun h => hbx h.symm)]
          exact Nat.succ_lt_succ (ih a b ha' hb' (Nat.lt_of_succ_lt_succ hlt))
    · rw [if_neg hp] at ha hb hlt
      have hax : a ≠ x := by
        intro h
        exact hp (h ▸ (List.mem_filter.mp ha).2)
      have hbx : b ≠ x := by
        intro h
        exact hp (h ▸ (List.mem_filter.mp hb).2)
      rw [List.indexOf_cons_ne t (fun h => hax h.symm),
        List.indexOf_cons_ne t (fun h => hbx h.symm)]
      exact Nat.succ_lt_succ (ih a b ha hb hlt)

theorem pairwise_firstSeenDedup :
    ∀ (n : Nat) (l : List String), l.length ≤ n →
      (firstSeenDedup l).Pairwise (fun a b => l.indexOf a < l.indexOf b) := by
  intro n
  induction n with
  | zero =>
    intro l hl
    have hnil : l = [] := List.length_eq_zero.mp (Nat.le_zero.mp hl)
    rw [hnil, firstSeenDedup]
    exact List.Pairwise.nil
  | succ n ih =>
    intro l hl
    cases l with
    | nil => rw [firstSeenDedup]; exact List.Pairwise.nil
    | cons f rest =>
      have hrest : (rest.filter (fun g => g != f)).length ≤ n :=
        le_trans (List.length_filter_le _ _) (by simpa using hl)
      rw [firstSeenDedup, List.pairwise_cons]
      constructor
      · intro b hb
        have hb' : b ∈ rest.filter (fun g => g != f) :=
          (mem_firstSeenDedup b n _ hrest).mp hb
        have hbf : b ≠ f := bne_iff_ne.mp (List.mem_filter.mp hb').2
        rw [List.indexOf_cons_self, List.indexOf_cons_ne rest (fun h => hbf h.symm)]
        exact Nat.succ_pos _
      · refine (ih _ hrest).imp_of_mem ?_
        intro a b ha hb hab
        have ha' : a ∈ rest.filter (fun g => g != f) :=
          (mem_firstSeenDedup a n _ hrest).mp ha
        have hb' : b ∈ rest.filter (fun g => g != f) :=
          (mem_firstSeenDedup b n _ hrest).mp hb
        have haf : a ≠ f := bne_iff_ne.mp (List.mem_filter.mp ha').2
        have hbf : b ≠ f := bne_iff_ne.mp (List.mem_filter.mp hb').2
        have h1 : rest.indexOf a < rest.indexOf b :=
          indexOf_filter_lt _ rest a b ha' hb' hab
        rw [List.indexOf_cons_ne rest (fun h => haf h.symm),
          List.indexOf_cons_ne rest (fun h => hbf h.symm)]
        exact Nat.succ_lt_succ h1

/-- C9: the deduplicated download list built from the per-character candidate
lists contains each candidate filename exactly once (it has no duplicates and
holds exactly the filenames of the concatenated candidate lists), ordered by
first occurrence across the concatenation, so no filename is fetched more
than once. -/
theorem unique_filenames_spec (ctf : List (String × List String)) :
    (unique_filenames (allFilenames ctf)).Nodup ∧
    (∀ f, f ∈ unique_filenames (allFilenames ctf) ↔ f ∈ allFilenames ctf) ∧
    (unique_filenames (allFilenames ctf)).Pairwise
      (fun a b => (allFilenames ctf).indexOf a < (allFilenames ctf).indexOf b) := by
  rw [unique_filenames_eq_firstSeenDedup]
  exact ⟨nodup_firstSeenDedup (allFilenames ctf).length _ le_rfl,
    fun f => mem_firstSeenDedup f (allFilenames ctf).length _ le_rfl,
    pairwise_firstSeenDedup (allFilenames ctf).length _ le_rfl⟩

/-- Deduplication preserving first occurrence; models building a Python
`set`, which the sync code observes only through membership and emptiness. -/
def dedupList (l : List String) : List String :=
  l.foldl (fun acc c => if acc.contains c then acc else acc ++ [c]) []

/-- Embedding of `SyncProcessor.find_missing_hashes` (`sync_processor.py`,
lines 72–98): the characters occurring as filename-mapping values but not as
hash-mapping values (`set(filename.values()) - set(hash.values())`). -/
def find_missing_hashes (fm hm : Mapping) : List String :=
  dedupList ((fm.map Prod.snd).filter (fun c => !(hm.map Prod.snd).contains c))

/-- `char_to_filenames[character].append(filename)` with creation on first
use, as performed by `get_filenames_for_characters`. -/
def appendToEntry (d : List (String × List String)) (k v : String) :
    List (String × List String) :=
  if (d.map Prod.fst).contains k then
    d.map (fun q => if q.1 == k then (q.1, q.2 ++ [v]) else q)
  else d ++ [(k, [v])]

/-- Embedding of `SyncProcessor.get_filenames_for_characters` (lines
100–123): group the filename mapping by character, restricted to the given
characters, preserving filename-mapping iteration order. -/
def get_filenames_for_characters (fm : Mapping) (chars : List String) :
    List (String × List String) :=
  fm.foldl (fun acc p => if chars.contains p.2 then appendToEntry acc p.2 p.1 else acc)
    []

/-- External context of one sync run: whether `get_domain_config` knows the
domain, whether `download_images_sync` reports success, and, per filename,
the outcome of `get_downloaded_image_path` + `hash_image_file`: `none` when
no downloaded image exists for the filename, `some h` when the image exists
and hashing returned the string `h` (`hash_image_file` catches its own
errors and returns `""`, so `h` may be empty). -/
structure SyncEnv where
  hasConfig : Bool
  downloadOk : Bool
  candidateHash : String → Option String

/-- The candidate loop of `process_missing_characters` (lines 176–193) for
one character: filenames are tried in order; one without a downloaded image
is skipped, a nonempty hash breaks the loop, and an empty hash leaves
`character_hash` falsy-but-not-`None` while the loop continues.  The result
is the final value of `character_hash`: `none` (never assigned, the
character fails), `some ""` (last assignment was an empty hash — the Python
`character_hash is None` test then sees `""`), or a nonempty `some h`. -/
def tryFiles (cand : String → Option String) : List String → Option String
  | [] => none
  | f :: rest =>
    match cand f with
    | none => tryFiles cand rest
    | some h =>
      if h.isEmpty then
        match tryFiles cand rest with
        | some h2 => some h2
        | none => some ""
      else some h

/-- The filenames actually passed to `hash_image_file` while trying one
character's candidates. -/
def hashedList (cand : String → Option String) : List String → List String
  | [] => []
  | f :: rest =>
    match cand f with
    | none => hashedList cand rest
    | some h => if h.isEmpty then f :: hashedList cand rest else [f]

/-- The hash-creation loop over all characters (lines 172–197): builds
`hash_results` (dict assignment `hash_results[hash] = character`) and the
`failed_hashes` list in character order.  A character whose final
`character_hash` is the empty string is neither recorded nor failed. -/
def hashLoop (cand : String → Option String)
    (ctf : List (String × List String)) : Mapping × List String :=
  ctf.foldl
    (fun acc p =>
      match tryFiles cand p.2 with
      | none => (acc.1, acc.2 ++ [p.1])
      | some h => if h.isEmpty then acc else (dictInsert acc.1 h p.1, acc.2))
    ([], [])

/-- Outcome of `process_missing_characters`: the returned result, the
`hash_results` stored in its details, and the recorded download/hash
effects. -/
structure ProcessOutcome where
  result : VResult
  hashResults : Mapping
  downloadedFiles : List String
  hashedFiles : List String
deriving Repr, DecidableEq

/-- Embedding of `SyncProcessor.process_missing_characters` (lines 125–224).
On download failure the code returns the downloader's own failed result; its
message is abstracted here, as no claim inspects it. -/
def process_missing_characters (env : SyncEnv)
    (ctf : List (String × List String)) : ProcessOutcome :=
  if ctf.isEmpty then
    { result := { success := true }, hashResults := [],
      downloadedFiles := [], hashedFiles := [] }
  else if !env.hasConfig then
    { result := { success := false,
                  errors := ["No configuration found for domain"] },
      hashResults := [], downloadedFiles := [], hashedFiles := [] }
  else if !env.downloadOk then
    { result := { success := false, errors := ["Image download failed"] },
      hashResults := [],
      downloadedFiles := unique_filenames (allFilenames ctf), hashedFiles := [] }
  else
    { result := { success := (hashLoop env.candidateHash ctf).2.isEmpty,
                  errors := (hashLoop env.candidateHash ctf).2.map
                    (fun c => "Failed to create hash for character: " ++ c),
                  warnings := if (hashLoop env.candidateHash ctf).2.isEmpty then []
                    else ["Failed to create hashes for characters"],
                  processed_files := (hashLoop env.candidateHash ctf).1.length,
                  total_files := ctf.length },
      hashResults := (hashLoop env.candidateHash ctf).1,
      downloadedFiles := unique_filenames (allFilenames ctf),
      hashedFiles := ctf.flatMap (fun p => hashedList env.candidateHash p.2) }

/-- Outcome of one `sync_domain` call: the returned result, the hash-mapping
file afterwards, and the recorded effects. -/
structure SyncOutcome where
  result : VResult
  hashFileAfter : Option Mapping
  downloadedFiles : List String
  hashedFiles : List String
  wroteHashFile : Bool
deriving Repr, DecidableEq

/-- Embedding of `SyncProcessor.sync_domain` (`sync_processor.py`, lines
295–365).  `fm` is the loaded filename mapping; `hashFile` is the
hash-mapping file, also serving as the loaded hash mapping (`{}` when the
file does not exist). -/
def sync_domain (env : SyncEnv) (fm : Mapping) (hashFile : Option Mapping) :
    SyncOutcome :=
  let hm := hashFile.getD []
  let missing := find_missing_hashes fm hm
  if missing.isEmpty then
    { result := { success := true }, hashFileAfter := hashFile,
      downloadedFiles := [], hashedFiles := [], wroteHashFile := false }
  else
    let ctf := get_filenames_for_characters fm missing
    let po := process_missing_characters env ctf
    if !po.result.success then
      { result := po.result, hashFileAfter := hashFile,
        downloadedFiles := po.downloadedFiles, hashedFiles := po.hashedFiles,
        wroteHashFile := false }
    else
      let new := po.hashResults
      if new.isEmpty then
        { result := { success := true, processed_files := new.length,
                      total_files := missing.length,
                      warnings := if new.length < missing.length then
                        ["Failed to create hashes for characters"] else [] },
          hashFileAfter := hashFile, downloadedFiles := po.downloadedFiles,
          hashedFiles := po.hashedFiles, wroteHashFile := false }
      else
        let uo := update_hash_mapping hashFile new
        if !uo.result.success then
          { result := uo.result, hashFileAfter := uo.fileAfter,
            downloadedFiles := po.downloadedFiles, hashedFiles := po.hashedFiles,
            wroteHashFile := uo.fileWritten }
        else
          { result := { success := true, processed_files := new.length,
                        total_files := missing.length,
                        warnings := if new.length < missing.length then
                          ["Failed to create hashes for characters"] else [] },
            hashFileAfter := uo.fileAfter, downloadedFiles := po.downloadedFiles,
            hashedFiles := po.hashedFiles, wroteHashFile := uo.fileWritten }

/-- C6: when every character value of the filename mapping already occurs
among the hash mapping's values, `sync_domain` returns a successful result
immediately: nothing is downloaded, nothing is hashed, the hash-mapping file
is not written and its contents are unchanged. -/
theorem sync_domain_noop_when_covered (env : SyncEnv) (fm : Mapping)
    (hashFile : Option Mapping)
    (hcov : ∀ c ∈ fm.map Prod.snd, c ∈ (hashFile.getD []).map Prod.snd) :
    (sync_domain env fm hashFile).result.success = true ∧
    (sync_domain env fm hashFile).hashFileAfter = hashFile ∧
    (sync_domain env fm hashFile).wroteHashFile = false ∧
    (sync_domain env fm hashFile).downloadedFiles = [] ∧
    (sync_domain env fm hashFile).hashedFiles = [] := by
  have hmiss : find_missing_hashes fm (hashFile.getD []) = [] := by
    rw [find_missing_hashes]
    have hfil : (fm.map Prod.snd).filter
        (fun c => !((hashFile.getD []).map Prod.snd).contains c) = [] := by
      rw [List.filter_eq_nil_iff]
      intro c hc
      have hmem : ((hashFile.getD []).map Prod.snd).contains c = true :=
        List.elem_iff.mpr (hcov c hc)
      rw [hmem]
      decide
    rw [hfil]
    rfl
  rw [sync_domain]
  simp only [hmiss]
  exact ⟨rfl, rfl, rfl, rfl, rfl⟩

/-- Witness for C6: one filename mapped to a character that the hash mapping
already covers. -/
theorem sync_domain_noop_when_covered_witness :
    (∀ c ∈ ([("a.png", "yu")] : Mapping).map Prod.snd,
      c ∈ ((some [("h", "yu")] : Option Mapping).getD []).map Prod.snd) ∧
    ((sync_domain ⟨true, true, fun _ => none⟩ [("a.png", "yu")]
        (some [("h", "yu")])).result.success = true ∧
     (sync_domain ⟨true, true, fun _ => none⟩ [("a.png", "yu")]
        (some [("h", "yu")])).hashFileAfter = some [("h", "yu")] ∧
     (sync_domain ⟨true, true, fun _ => none⟩ [("a.png", "yu")]
        (some [("h", "yu")])).wroteHashFile = false ∧
     (sync_domain ⟨true, true, fun _ => none⟩ [("a.png", "yu")]
        (some [("h", "yu")])).downloadedFiles = [] ∧
     (sync_domain ⟨true, true, fun _ => none⟩ [("a.png", "yu")]
        (some [("h", "yu")])).hashedFiles = []) :=
  ⟨by decide,
   sync_domain_noop_when_covered ⟨true, true, fun _ => none⟩ [("a.png", "yu")]
     (some [("h", "yu")]) (by decide)⟩

/-- When the hash stage is reached (nonempty work list, configured domain,
successful download), `process_missing_characters` returns the hash-loop
outcome. -/
theorem process_missing_characters_hash_branch (env : SyncEnv)
    (ctf : List (String × List String))
    (hctf : ctf.isEmpty = false) (hcfg : env.hasConfig = true)
    (hdl : env.downloadOk = true) :
    process_missing_characters env ctf =
      { result := { success := (hashLoop env.candidateHash ctf).2.isEmpty,
                    errors := (hashLoop env.candidateHash ctf).2.map
                      (fun c => "Failed to create hash for character: " ++ c),
                    warnings := if (hashLoop env.candidateHash ctf).2.isEmpty
                      then [] else ["Failed to create hashes for characters"],
                    processed_files := (hashLoop env.candidateHash ctf).1.length,
                    total_files := ctf.length },
        hashResults := (hashLoop env.candidateHash ctf).1,
        downloadedFiles := unique_filenames (allFilenames ctf),
        hashedFiles := ctf.flatMap (fun p => hashedList env.candidateHash p.2) } := by
  rw [process_missing_characters]
  simp only [hctf, hcfg, hdl, Bool.not_true, Bool.false_eq_true, if_false]

/-- When characters are missing and processing reports failure, `sync_domain`
returns the processing result and leaves the hash-mapping file untouched. -/
theorem sync_domain_abort_branch (env : SyncEnv) (fm : Mapping)
    (hashFile : Option Mapping)
    (hmiss : (find_missing_hashes fm (hashFile.getD [])).isEmpty = false)
    (hps : (process_missing_characters env
        (get_filenames_for_characters fm
          (find_missing_hashes fm (hashFile.getD [])))).result.success = false) :
    sync_domain env fm hashFile =
      { result := (process_missing_characters env
          (get_filenames_for_characters fm
            (find_missing_hashes fm (hashFile.getD [])))).result,
        hashFileAfter := hashFile,
        downloadedFiles := (process_missing_characters env
          (get_filenames_for_characters fm
            (find_missing_hashes fm (hashFile.getD [])))).downloadedFiles,
        hashedFiles := (process_missing_characters env
          (get_filenames_for_characters fm
            (find_missing_hashes fm (hashFile.getD [])))).hashedFiles,
        wroteHashFile := false } := by
  rw [sync_domain]
  simp only [hmiss, Bool.false_eq_true, if_false, hps, Bool.not_false, if_true]

/-- C2 counterexample: filename mapping `{f1: ca, f2: cb}`, no hash-mapping
file; `f1` hashes to `"01"` while `f2` has no usable image, so the hash
stage produces the entry `("01", ca)` and the failed character `cb`.
`sync_domain` then returns the failed processing result *without* merging
the successful entry: the hash-mapping file is not written and stays absent,
contradicting the claim that successes are still merged. -/
theorem sync_domain_partial_failure_counterexample :
    (process_missing_characters
        ⟨true, true, fun f => if f == "f1" then some "01" else none⟩
        (get_filenames_for_characters [("f1", "ca"), ("f2", "cb")]
          (find_missing_hashes [("f1", "ca"), ("f2", "cb")] []))).hashResults
      = [("01", "ca")] ∧
    (sync_domain ⟨true, true, fun f => if f == "f1" then some "01" else none⟩
        [("f1", "ca"), ("f2", "cb")] none).result.success = false ∧
    (sync_domain ⟨true, true, fun f => if f == "f1" then some "01" else none⟩
        [("f1", "ca"), ("f2", "cb")] none).wroteHashFile = false ∧
    (sync_domain ⟨true, true, fun f => if f == "f1" then some "01" else none⟩
        [("f1", "ca"), ("f2", "cb")] none).hashFileAfter = none := by
  exact ⟨rfl, rfl, rfl, rfl⟩

/-- C2 (amended): when at least one missing character fails to yield a hash
while others may have succeeded, `sync_domain` does abort the merge: it
returns the failed processing result — the failed characters recorded as its
errors — and the hash-mapping file is neither written nor changed, so even
the successfully created hash entries are not merged. -/
theorem sync_domain_partial_failure_aborts (env : SyncEnv) (fm : Mapping)
    (hashFile : Option Mapping)
    (hcfg : env.hasConfig = true) (hdl : env.downloadOk = true)
    (hmiss : find_missing_hashes fm (hashFile.getD []) ≠ [])
    (hfail : (hashLoop env.candidateHash
        (get_filenames_for_characters fm
          (find_missing_hashes fm (hashFile.getD [])))).2 ≠ []) :
    (sync_domain env fm hashFile).result.success = false ∧
    (sync_domain env fm hashFile).wroteHashFile = false ∧
    (sync_domain env fm hashFile).hashFileAfter = hashFile ∧
    (sync_domain env fm hashFile).result.errors =
      (hashLoop env.candidateHash
          (get_filenames_for_characters fm
            (find_missing_hashes fm (hashFile.getD [])))).2.map
        (fun c => "Failed to create hash for character: " ++ c) := by
  have hctf : (get_filenames_for_characters fm
      (find_missing_hashes fm (hashFile.getD []))).isEmpty = false := by
    rw [List.isEmpty_eq_false]
    intro hnil
    apply hfail
    rw [hnil]
    rfl
  have hfe : (hashLoop env.candidateHash (get_filenames_for_characters fm
      (find_missing_hashes fm (hashFile.getD [])))).2.isEmpty = false :=
    List.isEmpty_eq_false.mpr hfail
  have hpo := process_missing_characters_hash_branch env
    (get_filenames_for_characters fm (find_missing_hashes fm (hashFile.getD [])))
    hctf hcfg hdl
  have hps : (process_missing_characters env
      (get_filenames_for_characters fm
        (find_missing_hashes fm (hashFile.getD [])))).result.success = false := by
    rw [hpo, hfe]
  have habort := sync_domain_abort_branch env fm hashFile
    (List.isEmpty_eq_false.mpr hmiss) hps
  rw [habort]
  refine ⟨hps, rfl, rfl, ?_⟩
  rw [hpo]

/-- Witness for C2 (amended): `g1` hashes to `"11"`, `g2` has no image. -/
theorem sync_domain_partial_failure_aborts_witness :
    (⟨true, true, fun f => if f == "g1" then some "11" else none⟩ :
        SyncEnv).hasConfig = true ∧
    (⟨true, true, fun f => if f == "g1" then some "11" else none⟩ :
        SyncEnv).downloadOk = true ∧
    find_missing_hashes [("g1", "da"), ("g2", "db")]
      ((none : Option Mapping).getD []) ≠ [] ∧
    (hashLoop (⟨true, true, fun f => if f == "g1" then some "11" else none⟩ :
          SyncEnv).candidateHash
        (get_filenames_for_characters [("g1", "da"), ("g2", "db")]
          (find_missing_hashes [("g1", "da"), ("g2", "db")]
            ((none : Option Mapping).getD [])))).2 ≠ [] ∧
    ((sync_domain ⟨true, true, fun f => if f == "g1" then some "11" else none⟩
        [("g1", "da"), ("g2", "db")] none).result.success = false ∧
     (sync_domain ⟨true, true, fun f => if f == "g1" then some "11" else none⟩
        [("g1", "da"), ("g2", "db")] none).wroteHashFile = false ∧
     (sync_domain ⟨true, true, fun f => if f == "g1" then some "11" else none⟩
        [("g1", "da"), ("g2", "db")] none).hashFileAfter = none ∧
     (sync_domain ⟨true, true, fun f => if f == "g1" then some "11" else none⟩
        [("g1", "da"), ("g2", "db")] none).result.errors =
       (hashLoop (⟨true, true, fun f => if f == "g1" then some "11" else none⟩ :
             SyncEnv).candidateHash
           (get_filenames_for_characters [("g1", "da"), ("g2", "db")]
             (find_missing_hashes [("g1", "da"), ("g2", "db")]
               ((none : Option Mapping).getD [])))).2.map
         (fun c => "Failed to create hash for character: " ++ c)) :=
  ⟨rfl, rfl, by decide, by decide,
   sync_domain_partial_failure_aborts
     ⟨true, true, fun f => if f == "g1" then some "11" else none⟩
     [("g1", "da"), ("g2", "db")] none rfl rfl (by decide) (by decide)⟩

end SyncProcessor
